import Mathlib

/-!
Verification of the guild model registry and flag-value codec
(`guild/model.py`, `guild/flag_util.py`) against their specification.

Python strings are modelled as Lean `String`s (sequences of Unicode scalar
values); byte strings as `List Nat` with entries below 256.  Library calls
made by the source (`base64.b16encode`/`b16decode`, `str.encode("utf-8")`,
`bytes.decode("utf-8")`, `os.path` helpers, `yaml.safe_load` on scalars,
Python `int()`/`str()`) are modelled from their documented behaviour;
everything else is translated directly from the source.
-/

set_option maxHeartbeats 1000000
set_option maxRecDepth 16384

namespace GuildModel

/-- UTF-8 encoding of a single Unicode scalar value `n` as a list of byte
values.  Models the per-character action of Python's
`str.encode("utf-8")`. -/
def utf8EncodeChar (n : Nat) : List Nat :=
  if n < 0x80 then [n]
  else if n < 0x800 then [0xC0 + n / 64, 0x80 + n % 64]
  else if n < 0x10000 then [0xE0 + n / 4096, 0x80 + n / 64 % 64, 0x80 + n % 64]
  else [0xF0 + n / 262144, 0x80 + n / 4096 % 64, 0x80 + n / 64 % 64, 0x80 + n % 64]

/-- `str.encode("utf-8")`: UTF-8 encoding of a string given as its list of
scalar values. -/
def utf8Encode : List Char → List Nat
  | [] => []
  | c :: cs => utf8EncodeChar c.toNat ++ utf8Encode cs

/-- Decoding of one UTF-8 sequence whose lead byte is `b` and whose
remaining input is `bs`: yields the scalar value and the unconsumed bytes.
Rejects truncated sequences, bad continuation bytes, overlong forms,
surrogates and out-of-range values, as Python's strict codec does. -/
def utf8DecodeOne (b : Nat) (bs : List Nat) : Option (Nat × List Nat) :=
  if b < 0x80 then some (b, bs)
  else if b < 0xC0 then none
  else if b < 0xE0 then
    match bs with
    | b2 :: bs2 =>
      if 0x80 ≤ b2 ∧ b2 < 0xC0 then
        if 0x80 ≤ (b - 0xC0) * 64 + (b2 - 0x80) then
          some ((b - 0xC0) * 64 + (b2 - 0x80), bs2)
        else none
      else none
    | [] => none
  else if b < 0xF0 then
    match bs with
    | b2 :: b3 :: bs3 =>
      if (0x80 ≤ b2 ∧ b2 < 0xC0) ∧ (0x80 ≤ b3 ∧ b3 < 0xC0) then
        if 0x800 ≤ (b - 0xE0) * 4096 + (b2 - 0x80) * 64 + (b3 - 0x80) ∧
            ¬(0xD800 ≤ (b - 0xE0) * 4096 + (b2 - 0x80) * 64 + (b3 - 0x80) ∧
              (b - 0xE0) * 4096 + (b2 - 0x80) * 64 + (b3 - 0x80) < 0xE000) then
          some ((b - 0xE0) * 4096 + (b2 - 0x80) * 64 + (b3 - 0x80), bs3)
        else none
      else none
    | _ => none
  else if b < 0xF8 then
    match bs with
    | b2 :: b3 :: b4 :: bs4 =>
      if (0x80 ≤ b2 ∧ b2 < 0xC0) ∧ (0x80 ≤ b3 ∧ b3 < 0xC0) ∧
          (0x80 ≤ b4 ∧ b4 < 0xC0) then
        if 0x10000 ≤ (b - 0xF0) * 262144 + (b2 - 0x80) * 4096 +
              (b3 - 0x80) * 64 + (b4 - 0x80) ∧
            (b - 0xF0) * 262144 + (b2 - 0x80) * 4096 +
              (b3 - 0x80) * 64 + (b4 - 0x80) < 0x110000 then
          some ((b - 0xF0) * 262144 + (b2 - 0x80) * 4096 +
            (b3 - 0x80) * 64 + (b4 - 0x80), bs4)
        else none
      else none
    | _ => none
  else none

theorem utf8DecodeOne_length {b : Nat} {bs : List Nat} {v : Nat}
    {rest : List Nat} (h : utf8DecodeOne b bs = some (v, rest)) :
    rest.length ≤ bs.length := by
  unfold utf8DecodeOne at h
  repeat' split at h
  all_goals cases h
  all_goals (try simp only [List.length_cons])
  all_goals omega

/-- Fuel-indexed driver for UTF-8 decoding: decodes one sequence per unit
of fuel.  `utf8DecodeOne` never lengthens its input, so fuel equal to the
input length always suffices. -/
def utf8DecodeAux : Nat → List Nat → Option (List Char)
  | _, [] => some []
  | 0, _ :: _ => none
  | fuel + 1, b :: bs =>
    match utf8DecodeOne b bs with
    | none => none
    | some (v, rest) => (utf8DecodeAux fuel rest).map (Char.ofNat v :: ·)

/-- `bytes.decode("utf-8")`: strict UTF-8 decoding of a byte list, one
sequence at a time via `utf8DecodeOne`. -/
def utf8Decode (l : List Nat) : Option (List Char) :=
  utf8DecodeAux l.length l

theorem utf8DecodeAux_congr :
    ∀ (f1 f2 : Nat) (l : List Nat), l.length ≤ f1 → l.length ≤ f2 →
      utf8DecodeAux f1 l = utf8DecodeAux f2 l := by
  intro f1
  induction f1 with
  | zero =>
    intro f2 l h1 _
    have : l = [] := List.length_eq_zero.mp (Nat.le_zero.mp h1)
    subst this
    cases f2 <;> rfl
  | succ f ih =>
    intro f2 l h1 h2
    cases l with
    | nil => cases f2 <;> rfl
    | cons b bs =>
      cases f2 with
      | zero => simp only [List.length_cons] at h2; omega
      | succ f2' =>
        simp only [utf8DecodeAux]
        cases hdec : utf8DecodeOne b bs with
        | none => rfl
        | some vr =>
          obtain ⟨v, rest⟩ := vr
          have hr : rest.length ≤ bs.length := utf8DecodeOne_length hdec
          simp only [List.length_cons] at h1 h2
          show (utf8DecodeAux f rest).map (Char.ofNat v :: ·) =
            (utf8DecodeAux f2' rest).map (Char.ofNat v :: ·)
          rw [ih f2' rest (by omega) (by omega)]

/-- The uppercase hexadecimal digit for `d < 16`, as used by
`base64.b16encode`. -/
def hexDigitChar (d : Nat) : Char :=
  if d < 10 then Char.ofNat (48 + d) else Char.ofNat (55 + d)

/-- `base64.b16encode`: each byte becomes two uppercase hex digits. -/
def hexEncode : List Nat → List Char
  | [] => []
  | b :: bs => hexDigitChar (b / 16) :: hexDigitChar (b % 16) :: hexEncode bs

/-- The value of one uppercase hex digit, or `none` for any other character
(`base64.b16decode` without casefold rejects lowercase input). -/
def hexDigitVal (c : Char) : Option Nat :=
  if 48 ≤ c.toNat ∧ c.toNat ≤ 57 then some (c.toNat - 48)
  else if 65 ≤ c.toNat ∧ c.toNat ≤ 70 then some (c.toNat - 55)
  else none

/-- `base64.b16decode`: pairs of uppercase hex digits back to bytes; fails on
odd-length input or any non-hex-digit character. -/
def hexDecode : List Char → Option (List Nat)
  | [] => some []
  | [_] => none
  | c1 :: c2 :: cs =>
    match hexDigitVal c1, hexDigitVal c2 with
    | some d1, some d2 => (hexDecode cs).map (fun bs => (d1 * 16 + d2) :: bs)
    | _, _ => none

/-- `_escape_project_name(name)`: base16 encoding of the UTF-8 bytes of
`name` (`base64.b16encode(name.encode("utf-8")).decode("utf-8")`). -/
def escape_project_name (name : String) : String :=
  String.mk (hexEncode (utf8Encode name.data))

/-- `_unescape_project_name(escaped_name)`:
`base64.b16decode(escaped_name).decode("utf-8")`; `none` models the
exception raised on a malformed token. -/
def unescape_project_name (escaped_name : String) : Option String :=
  (hexDecode escaped_name.data).bind (fun bs => (utf8Decode bs).map String.mk)

/-! ### Round-trip lemmas for the escape codec -/

theorem char_toNat_valid (c : Char) :
    c.toNat < 0xD800 ∨ (0xDFFF < c.toNat ∧ c.toNat < 0x110000) := c.valid

theorem utf8DecodeOne_encodeChar (c : Char) (bs : List Nat) :
    ∃ b t, utf8EncodeChar c.toNat = b :: t ∧
      utf8DecodeOne b (t ++ bs) = some (c.toNat, bs) := by
  have hv := char_toNat_valid c
  set n := c.toNat with hn
  by_cases h1 : n < 0x80
  · refine ⟨n, [], by rw [utf8EncodeChar, if_pos h1], ?_⟩
    simp only [List.nil_append, utf8DecodeOne, if_pos h1]
  · by_cases h2 : n < 0x800
    · refine ⟨0xC0 + n / 64, [0x80 + n % 64],
        by rw [utf8EncodeChar, if_neg h1, if_pos h2], ?_⟩
      simp only [List.cons_append, List.nil_append, utf8DecodeOne]
      have e0 : ¬ (0xC0 + n / 64 < 0x80) := by omega
      have e0' : ¬ (0xC0 + n / 64 < 0xC0) := by omega
      have e1 : 0xC0 + n / 64 < 0xE0 := by omega
      have c2 : 0x80 ≤ 0x80 + n % 64 ∧ 0x80 + n % 64 < 0xC0 := by omega
      rw [if_neg e0, if_neg e0', if_pos e1]
      have hval : (0xC0 + n / 64 - 0xC0) * 64 + (0x80 + n % 64 - 0x80) = n := by
        omega
      simp only [if_pos c2, hval]
      have hge : 0x80 ≤ n := by omega
      rw [if_pos hge]
    · by_cases h3 : n < 0x10000
      · refine ⟨0xE0 + n / 4096, [0x80 + n / 64 % 64, 0x80 + n % 64],
          by rw [utf8EncodeChar, if_neg h1, if_neg h2, if_pos h3], ?_⟩
        simp only [List.cons_append, List.nil_append, utf8DecodeOne]
        have e1 : ¬ (0xE0 + n / 4096 < 0x80) := by omega
        have e2 : ¬ (0xE0 + n / 4096 < 0xC0) := by omega
        have e3 : ¬ (0xE0 + n / 4096 < 0xE0) := by omega
        have e4 : 0xE0 + n / 4096 < 0xF0 := by omega
        have c23 : (0x80 ≤ 0x80 + n / 64 % 64 ∧ 0x80 + n / 64 % 64 < 0xC0) ∧
            (0x80 ≤ 0x80 + n % 64 ∧ 0x80 + n % 64 < 0xC0) := by omega
        rw [if_neg e1, if_neg e2, if_neg e3, if_pos e4]
        have hval : (0xE0 + n / 4096 - 0xE0) * 4096 +
            (0x80 + n / 64 % 64 - 0x80) * 64 + (0x80 + n % 64 - 0x80) = n := by
          omega
        simp only [if_pos c23, hval]
        have hrange : 0x800 ≤ n ∧ ¬(0xD800 ≤ n ∧ n < 0xE000) := by omega
        rw [if_pos hrange]
      · refine ⟨0xF0 + n / 262144,
          [0x80 + n / 4096 % 64, 0x80 + n / 64 % 64, 0x80 + n % 64],
          by rw [utf8EncodeChar, if_neg h1, if_neg h2, if_neg h3], ?_⟩
        simp only [List.cons_append, List.nil_append, utf8DecodeOne]
        have e1 : ¬ (0xF0 + n / 262144 < 0x80) := by omega
        have e2 : ¬ (0xF0 + n / 262144 < 0xC0) := by omega
        have e3 : ¬ (0xF0 + n / 262144 < 0xE0) := by omega
        have e4 : ¬ (0xF0 + n / 262144 < 0xF0) := by omega
        have e5 : 0xF0 + n / 262144 < 0xF8 := by omega
        have c234 : (0x80 ≤ 0x80 + n / 4096 % 64 ∧ 0x80 + n / 4096 % 64 < 0xC0) ∧
            (0x80 ≤ 0x80 + n / 64 % 64 ∧ 0x80 + n / 64 % 64 < 0xC0) ∧
            (0x80 ≤ 0x80 + n % 64 ∧ 0x80 + n % 64 < 0xC0) := by omega
        rw [if_neg e1, if_neg e2, if_neg e3, if_neg e4, if_pos e5]
        have hval : (0xF0 + n / 262144 - 0xF0) * 262144 +
            (0x80 + n / 4096 % 64 - 0x80) * 4096 +
            (0x80 + n / 64 % 64 - 0x80) * 64 + (0x80 + n % 64 - 0x80) = n := by
          omega
        simp only [if_pos c234, hval]
        have hrange : 0x10000 ≤ n ∧ n < 0x110000 := by omega
        rw [if_pos hrange]

theorem utf8Decode_encodeChar (c : Char) (bs : List Nat) :
    utf8Decode (utf8EncodeChar c.toNat ++ bs) = (utf8Decode bs).map (c :: ·) := by
  obtain ⟨b, t, henc, hdec⟩ := utf8DecodeOne_encodeChar c bs
  unfold utf8Decode
  rw [henc, List.cons_append]
  simp only [List.length_cons, utf8DecodeAux, hdec]
  have hlen : bs.length ≤ (t ++ bs).length := by
    simp only [List.length_append]; omega
  rw [utf8DecodeAux_congr _ bs.length bs hlen (Nat.le_refl _),
    Char.ofNat_toNat]

theorem utf8Decode_utf8Encode (s : List Char) :
    utf8Decode (utf8Encode s) = some s := by
  induction s with
  | nil => rfl
  | cons c cs ih =>
    rw [utf8Encode, utf8Decode_encodeChar, ih, Option.map_some']

theorem hexDigitVal_hexDigitChar (d : Nat) (h : d < 16) :
    hexDigitVal (hexDigitChar d) = some d := by
  revert h; revert d; decide

theorem utf8EncodeChar_lt_256 (c : Char) (b : Nat)
    (hb : b ∈ utf8EncodeChar c.toNat) : b < 256 := by
  have hv := char_toNat_valid c
  set n := c.toNat with hn
  unfold utf8EncodeChar at hb
  by_cases h1 : n < 0x80
  · simp only [if_pos h1, List.mem_singleton] at hb; omega
  · by_cases h2 : n < 0x800
    · simp only [if_neg h1, if_pos h2, List.mem_cons, List.mem_singleton,
        List.not_mem_nil, or_false] at hb
      rcases hb with h | h <;> omega
    · by_cases h3 : n < 0x10000
      · simp only [if_neg h1, if_neg h2, if_pos h3, List.mem_cons,
          List.not_mem_nil, or_false] at hb
        rcases hb with h | h | h <;> omega
      · simp only [if_neg h1, if_neg h2, if_neg h3, List.mem_cons,
          List.not_mem_nil, or_false] at hb
        rcases hb with h | h | h | h <;> omega

theorem hexDecode_hexEncode (bs : List Nat) (h : ∀ b ∈ bs, b < 256) :
    hexDecode (hexEncode bs) = some bs := by
  induction bs with
  | nil => rfl
  | cons b tl ih =>
    have hb : b < 256 := h b (List.mem_cons_self b tl)
    have htl : ∀ x ∈ tl, x < 256 := fun x hx => h x (List.mem_cons_of_mem b hx)
    have h1 : b / 16 < 16 := by omega
    have h2 : b % 16 < 16 := by omega
    simp only [hexEncode, hexDecode, hexDigitVal_hexDigitChar _ h1,
      hexDigitVal_hexDigitChar _ h2, ih htl, Option.map_some']
    have : b / 16 * 16 + b % 16 = b := by omega
    rw [this]

theorem utf8Encode_lt_256 (s : List Char) : ∀ b ∈ utf8Encode s, b < 256 := by
  induction s with
  | nil => intro b hb; cases hb
  | cons c cs ih =>
    intro b hb
    simp only [utf8Encode, List.mem_append] at hb
    rcases hb with h | h
    · exact utf8EncodeChar_lt_256 c b h
    · exact ih b h

theorem unescape_escape (p : String) :
    unescape_project_name (escape_project_name p) = some p := by
  unfold unescape_project_name escape_project_name
  rw [show (String.mk (hexEncode (utf8Encode p.data))).data
      = hexEncode (utf8Encode p.data) from rfl]
  rw [hexDecode_hexEncode _ (utf8Encode_lt_256 p.data)]
  rw [show (some (utf8Encode p.data)).bind
        (fun bs => (utf8Decode bs).map String.mk)
      = (utf8Decode (utf8Encode p.data)).map String.mk from rfl]
  rw [utf8Decode_utf8Encode]
  rfl

/-! ### Namespace membership (`ModelfileNamespace.is_project_name_member`) -/

/-- `namespace.Membership` values returned by `is_project_name_member`. -/
inductive NamespaceMembership
  | yes
  | no
deriving DecidableEq

deriving instance DecidableEq for Except

/-- Python `s.split(sep, 1)` for a one-character separator, on the
character list of `s`: the part before the first occurrence of `sep` and,
when `sep` occurs, the part after it. -/
def pySplitOnce (l : List Char) (sep : Char) : List Char × Option (List Char) :=
  (l.takeWhile (· ≠ sep),
    if sep ∈ l then some ((l.dropWhile (· ≠ sep)).drop 1) else none)

/-- `ModelfileNamespace.is_project_name_member(name)` (model.py lines
230-238): on the `".modelfile."` literal the source drops the first 11
characters, splits once at `'/'` and unescapes the first part.  `Except
Unit` models the `binascii`/decode exception propagating out of
`_unescape_project_name` on a malformed token (the source has no handler
around it). -/
def is_project_name_member (name : String) :
    Except Unit (NamespaceMembership × Option String) :=
  if (".modelfile.".data).isPrefixOf name.data then
    let parts := pySplitOnce (name.data.drop 11) '/'
    match unescape_project_name (String.mk parts.1) with
    | none => .error ()
    | some project_name =>
      let rest := match parts.2 with
        | some r => "/" ++ String.mk r
        | none => ""
      .ok (.yes, some (project_name ++ rest))
  else .ok (.no, none)

/-- C1: for every relative path string `p`, unescaping the escaped form
returns exactly `p` (a byte-exact round trip), and distinct inputs yield
distinct escaped tokens (escaping is injective). -/
theorem escape_project_name_roundtrip_injective (p q : String) :
    unescape_project_name (escape_project_name p) = some p ∧
    (escape_project_name p = escape_project_name q → p = q) := by
  refine ⟨unescape_escape p, fun h => ?_⟩
  have h1 := unescape_escape p
  rw [h, unescape_escape q] at h1
  injection h1 with h2
  exact h2.symm

/-- Witness for C1 at the concrete path "./proj-a". -/
theorem escape_project_name_roundtrip_injective_witness :
    unescape_project_name (escape_project_name "./proj-a") = some "./proj-a" ∧
    (escape_project_name "./proj-a" = escape_project_name "./proj-a" →
      "./proj-a" = "./proj-a") :=
  escape_project_name_roundtrip_injective "./proj-a" "./proj-a"

/-- C2 counterexample: the identifier ".modelfile.ZZ" starts with the
".modelfile." literal, but the escaped token "ZZ" is not valid base16, so
`is_project_name_member` propagates the decode exception (modelled as
`.error ()`) instead of returning a yes-membership with a recovered
name. -/
theorem is_project_name_member_counterexample :
    (".modelfile.".data.isPrefixOf ".modelfile.ZZ".data) = true ∧
    is_project_name_member ".modelfile.ZZ" = .error () := by
  exact ⟨by decide, by decide⟩

/-- C2 (amended): for identifiers starting with ".modelfile." whose first
'/'-delimited segment after the prefix is a valid escaped token, the
result is membership yes with the unescaped segment concatenated with '/'
plus the remainder when a remainder exists (and nothing extra when it does
not); identifiers not starting with the prefix give membership no and no
name; malformed tokens surface the decode error instead. -/
theorem is_project_name_member_spec (name u : String) :
    ((".modelfile.".data.isPrefixOf name.data) = true →
      unescape_project_name
        (String.mk ((name.data.drop 11).takeWhile (· ≠ '/'))) = some u →
      is_project_name_member name = .ok (.yes, some (u ++
        (if '/' ∈ name.data.drop 11 then
          "/" ++ String.mk (((name.data.drop 11).dropWhile (· ≠ '/')).drop 1)
        else "")))) ∧
    ((".modelfile.".data.isPrefixOf name.data) = false →
      is_project_name_member name = .ok (.no, none)) := by
  constructor
  · intro hpre hu
    simp only [is_project_name_member, pySplitOnce, hpre, hu, if_true]
    by_cases hin : '/' ∈ name.data.drop 11
    · simp only [hin, if_true, if_pos hin]
    · simp only [hin, if_false, if_neg hin]
  · intro hpre
    simp only [is_project_name_member, hpre]
    rw [if_neg (by simp [hpre])]

/-- Witness for C2 (amended): ".modelfile.2E2F78/net" recovers "./x/net",
and "guildai" is not a member. -/
theorem is_project_name_member_spec_witness :
    is_project_name_member ".modelfile.2E2F78/net" =
      .ok (.yes, some ("./x" ++
        (if '/' ∈ ".modelfile.2E2F78/net".data.drop 11 then
          "/" ++ String.mk (((".modelfile.2E2F78/net".data.drop 11).dropWhile
            (· ≠ '/')).drop 1)
        else ""))) ∧
    is_project_name_member "guildai" = .ok (.no, none) :=
  ⟨(is_project_name_member_spec ".modelfile.2E2F78/net" "./x").1
      (by decide) (by decide),
    (is_project_name_member_spec "guildai" "").2 (by decide)⟩

/-! ### Modelfile distribution project names (`_modelfile_project_name`) -/

/-- `posixpath.dirname(p)`: everything up to the last '/', with trailing
slashes stripped unless the head consists only of slashes. -/
def posixDirname (p : String) : String :=
  let head := (p.data.reverse.dropWhile (· ≠ '/')).reverse
  if head ≠ [] ∧ head.all (fun c => c = '/') = false then
    String.mk ((head.reverse.dropWhile (fun c => c = '/')).reverse)
  else String.mk head

/-- `posixpath.join(".", p)` as used by `_modelfile_project_name`: `p`
itself when `p` is absolute, otherwise `"./" ++ p`. -/
def pyJoinDot (p : String) : String :=
  if p.data.take 1 = ['/'] then p else "./" ++ p

/-- The characters preserved by `pkg_resources.safe_name` (`[A-Za-z0-9.]`;
every other maximal run becomes a single '-'). -/
def safeNameChar (c : Char) : Bool :=
  decide (48 ≤ c.toNat ∧ c.toNat ≤ 57) || decide (65 ≤ c.toNat ∧ c.toNat ≤ 90)
    || decide (97 ≤ c.toNat ∧ c.toNat ≤ 122) || decide (c = '.')

/-- Run of `pkg_resources.safe_name` over a character list; the flag
records whether the previous character was part of a replaced run. -/
def safeNameAux : Bool → List Char → List Char
  | _, [] => []
  | inRun, c :: cs =>
    if safeNameChar c then c :: safeNameAux false cs
    else if inRun then safeNameAux true cs
    else '-' :: safeNameAux true cs

/-- `pkg_resources.safe_name(s)`: `re.sub('[^A-Za-z0-9.]+', '-', s)`.  The
`pkg_resources.Distribution` constructor applies this to the project name
it is given, so `ModelfileDistribution.__init__` stores the safe_name of
`_modelfile_project_name(modelfile)`. -/
def safe_name (s : String) : String :=
  String.mk (safeNameAux false s.data)

/-- `_modelfile_project_name(modelfile)` (model.py lines 131-152), as a
function of `src = modelfile.src` and of `rel`, the behaviour of
`os.path.relpath` (which depends on the process working directory and is
external).  `none` models the IndexError on an empty relative path, which
`os.path.relpath` never produces. -/
def modelfile_project_name (rel : String → String) (src : String) :
    Option String :=
  let pkg_path := rel (posixDirname src)
  match pkg_path.data with
  | [] => none
  | c :: _ =>
    let pkg_path2 := if c ≠ '.' then pyJoinDot pkg_path else pkg_path
    some (".modelfile." ++ escape_project_name pkg_path2)

/-- The `project_name` stored by `ModelfileDistribution.__init__` (model.py
lines 110-114): `pkg_resources.Distribution.__init__` stores
`safe_name(project_name)`. -/
def modelfileDistribution_project_name (rel : String → String)
    (src : String) : Option String :=
  (modelfile_project_name rel src).map safe_name

theorem dropWhile_append_all {α : Type} (p : α → Bool) (l1 l2 : List α)
    (h : ∀ c ∈ l1, p c = true) :
    (l1 ++ l2).dropWhile p = l2.dropWhile p := by
  induction l1 with
  | nil => rfl
  | cons a l ih =>
    have ha : p a = true := h a (List.mem_cons_self a l)
    simp only [List.cons_append, List.dropWhile_cons, ha, if_true]
    exact ih (fun c hc => h c (List.mem_cons_of_mem a hc))

theorem posixDirname_append (d base : String) (hd : d ≠ "")
    (hlast : d.data.getLast? ≠ some '/') (hbase : '/' ∉ base.data) :
    posixDirname (d ++ "/" ++ base) = d := by
  have hdata : (d ++ "/" ++ base).data = d.data ++ '/' :: base.data := by
    simp [String.data_append]
  cases hrev : d.data.reverse with
  | nil =>
    exfalso
    apply hd
    have : d.data = [] := by
      have := congrArg List.reverse hrev
      simpa using this
    exact String.ext (by simp [this])
  | cons lc t =>
    have hlc : lc ≠ '/' := by
      intro hlc
      apply hlast
      rw [← List.head?_reverse, hrev, hlc]
      rfl
    have hheadval : ((d ++ "/" ++ base).data.reverse.dropWhile
        (· ≠ '/')).reverse = d.data ++ ['/'] := by
      rw [hdata]
      rw [show (d.data ++ '/' :: base.data).reverse
          = base.data.reverse ++ '/' :: d.data.reverse by simp]
      rw [dropWhile_append_all _ _ _ (fun c hc => by
        simp only [decide_eq_true_eq]
        intro hceq
        exact hbase (hceq ▸ List.mem_reverse.mp hc))]
      rw [List.dropWhile_cons, if_neg (by decide)]
      simp
    have hne : d.data ++ ['/'] ≠ [] := by simp
    have hall : (d.data ++ ['/']).all (fun c => c = '/') = false := by
      rw [List.all_eq_false]
      refine ⟨lc, ?_, by simp [hlc]⟩
      have hmem : lc ∈ d.data.reverse := by
        rw [hrev]
        exact List.mem_cons_self lc t
      exact List.mem_append_left _ (List.mem_reverse.mp hmem)
    have hstrip : ((d.data ++ ['/']).reverse.dropWhile
        (fun c => c = '/')).reverse = d.data := by
      rw [show (d.data ++ ['/']).reverse = '/' :: d.data.reverse by simp]
      rw [List.dropWhile_cons, if_pos (by decide)]
      rw [hrev, List.dropWhile_cons, if_neg (by simp [hlc])]
      rw [← hrev, List.reverse_reverse]
    simp only [posixDirname]
    rw [hheadval, if_pos ⟨hne, hall⟩, hstrip]

theorem safeNameAux_id (l : List Char) (h : ∀ c ∈ l, safeNameChar c = true) :
    safeNameAux false l = l := by
  induction l with
  | nil => rfl
  | cons c cs ih =>
    have hc := h c (List.mem_cons_self c cs)
    simp only [safeNameAux, hc, if_true]
    rw [ih (fun x hx => h x (List.mem_cons_of_mem c hx))]

theorem safe_name_id (s : String) (h : ∀ c ∈ s.data, safeNameChar c = true) :
    safe_name s = s := by
  unfold safe_name
  rw [safeNameAux_id s.data h]

theorem hexDigitChar_safe (d : Nat) (h : d < 16) :
    safeNameChar (hexDigitChar d) = true := by
  revert d
  decide

theorem hexEncode_safe (bs : List Nat) (h : ∀ b ∈ bs, b < 256) :
    ∀ c ∈ hexEncode bs, safeNameChar c = true := by
  induction bs with
  | nil =>
    intro c hc
    cases hc
  | cons b tl ih =>
    intro c hc
    have hb := h b (List.mem_cons_self b tl)
    simp only [hexEncode, List.mem_cons] at hc
    rcases hc with rfl | rfl | hc
    · exact hexDigitChar_safe _ (by omega)
    · exact hexDigitChar_safe _ (by omega)
    · exact ih (fun x hx => h x (List.mem_cons_of_mem b hx)) c hc

theorem projectName_safe (p : String) :
    safe_name (".modelfile." ++ escape_project_name p)
      = ".modelfile." ++ escape_project_name p := by
  apply safe_name_id
  intro c hc
  rw [String.data_append] at hc
  simp only [escape_project_name] at hc
  rcases List.mem_append.mp hc with h | h
  · have hall : ∀ c ∈ ".modelfile.".data, safeNameChar c = true := by decide
    exact hall c h
  · exact hexEncode_safe _ (utf8Encode_lt_256 p.data) c h

/-- C3: for every definition file `d ++ "/" ++ base` (no '/' in the
basename, directory not empty and not ending in '/'), and every behaviour
`rel` of `os.path.relpath` returning a non-empty relative (non-'/'-rooted)
path, the stored `project_name` is `".modelfile." ++ escape(p)` where `p`
is `rel` of the containing directory, prefixed with "./" when it does not
already start with '.'; the basename is not part of the escaped path. -/
theorem modelfileDistribution_project_name_spec
    (rel : String → String) (d base : String)
    (hd : d ≠ "") (hlast : d.data.getLast? ≠ some '/')
    (hbase : '/' ∉ base.data)
    (hrel : (rel d).data ≠ []) (hrelabs : (rel d).data.take 1 ≠ ['/']) :
    modelfileDistribution_project_name rel (d ++ "/" ++ base)
      = some (".modelfile." ++ escape_project_name
          (if (rel d).data.take 1 = ['.'] then rel d else "./" ++ rel d)) := by
  obtain ⟨c, cs, hc⟩ : ∃ c cs, (rel d).data = c :: cs := by
    cases h' : (rel d).data with
    | nil => exact absurd h' hrel
    | cons a b => exact ⟨a, b, rfl⟩
  unfold modelfileDistribution_project_name modelfile_project_name
  rw [posixDirname_append d base hd hlast hbase]
  simp only [hc]
  rw [Option.map_some', projectName_safe]
  rw [hc] at hrelabs
  simp only [List.take_succ_cons, List.take_zero] at hrelabs ⊢
  by_cases hcdot : c = '.'
  · rw [if_neg (by simp [hcdot]), if_pos (by simp [hcdot])]
  · rw [if_pos hcdot, if_neg (by simp [hcdot])]
    unfold pyJoinDot
    rw [hc]
    simp only [List.take_succ_cons, List.take_zero]
    rw [if_neg hrelabs]

/-- Witness for C3: a definition file "proj-a/MODEL" with relpath
returning "proj-a" yields project name ".modelfile." ++
escape("./proj-a"). -/
theorem modelfileDistribution_project_name_spec_witness :
    modelfileDistribution_project_name (fun _ => "proj-a") "proj-a/MODEL"
      = some (".modelfile." ++ escape_project_name "./proj-a") :=
  modelfileDistribution_project_name_spec (fun _ => "proj-a") "proj-a" "MODEL"
    (by decide) (by decide) (by decide) (by decide) (by decide)

/-! ### Model definitions and their lookup -/

/-- A model definition as the core reads it (collaborator contract of the
modelfile parser): its name and privacy flag. -/
structure ModelDef where
  name : String
  «private» : Bool
deriving DecidableEq

/-- `ModelfileDistribution.get_model(name)` (model.py lines 125-129): scan
the modelfile's definitions in declaration order, return the first whose
name matches, raise `ValueError(name)` otherwise. -/
def get_model : List ModelDef → String → Except String ModelDef
  | [], name => .error name
  | m :: rest, name => if m.name = name then .ok m else get_model rest name

/-- The scan in `_modeldef_for_dist` for a non-modelfile distribution
(model.py lines 60-63): first loaded definition whose name matches, else
`ValueError("undefined model '<name>'")`. -/
def modeldef_for_dist_scan : List ModelDef → String → Except String ModelDef
  | [], name => .error ("undefined model " ++ name)
  | m :: rest, name =>
    if m.name = name then .ok m else modeldef_for_dist_scan rest name

/-! ### Loading a package distribution's model definitions -/

/-- What `_load_dist_modeldefs` reads from a `pkg_resources.Distribution`:
its location and the result of `get_metadata_lines("RECORD")`, an IOError
(modelled `.error`) or the manifest lines. -/
structure PkgDist where
  location : String
  record : Except Unit (List String)

/-- `os.path.basename(p)`: the part after the last '/'. -/
def posixBasename (p : String) : String :=
  String.mk ((p.data.reverse.takeWhile (· ≠ '/')).reverse)

/-- `line.split(",", 1)[0]`: the part of a RECORD line before the first
comma. -/
def recordPath (line : String) : String :=
  String.mk (line.data.takeWhile (· ≠ ','))

/-- `os.path.join(location, p)` for manifest paths: `p` itself when
absolute; otherwise joined with '/' unless `location` is empty or already
ends in '/'. -/
def pyJoin (location p : String) : String :=
  if p.data.take 1 = ['/'] then p
  else if location = "" ∨ location.data.getLast? = some '/' then location ++ p
  else location ++ "/" ++ p

/-- `_try_acc_modeldefs(path, acc)` (model.py lines 86-93): parse `path`
with the external loader `from_file`; on failure record a warning for that
file, on success append every parsed definition to the accumulator.
Returns the new accumulator and the warnings emitted. -/
def try_acc_modeldefs (from_file : String → Except String (List ModelDef))
    (path : String) (acc : List ModelDef) : List ModelDef × List String :=
  match from_file path with
  | .error e => (acc, ["unable to load models from " ++ path ++ ": " ++ e])
  | .ok models => (acc ++ models, [])

/-- The body of the RECORD loop in `_load_dist_modeldefs` (model.py lines
79-83): take the path before the first comma; when its basename is a
recognized definition-file name, parse the joined path via
`_try_acc_modeldefs`. -/
def loadStep (NAMES : List String)
    (from_file : String → Except String (List ModelDef)) (loc : String)
    (acc : List ModelDef × List String) (line : String) :
    List ModelDef × List String :=
  let path := recordPath line
  if posixBasename path ∈ NAMES then
    let r := try_acc_modeldefs from_file (pyJoin loc path) acc.1
    (r.1, acc.2 ++ r.2)
  else acc

/-- `_load_dist_modeldefs(dist)` (model.py lines 70-84).  `NAMES` is
`modelfile.NAMES`, the recognized definition-file basenames (external
collaborator); `from_file` is `modelfile.from_file`.  On an IOError from
the RECORD read, a warning is recorded and no definitions result;
otherwise every manifest line whose path's basename is recognized is
parsed via `_try_acc_modeldefs`.  Returns the definitions and the warnings
emitted. -/
def load_dist_modeldefs (NAMES : List String)
    (from_file : String → Except String (List ModelDef))
    (dist : PkgDist) : List ModelDef × List String :=
  match dist.record with
  | .error _ =>
    ([], ["distribution missing RECORD metadata - unable to find models"])
  | .ok record => record.foldl (loadStep NAMES from_file dist.location) ([], [])

/-- Specification-side closed form (spec §4.2) of the definitions gathered
by a manifest scan: per matched line, the parsed definitions on success
and nothing on a parse failure, concatenated in manifest order. -/
def scanDefs (NAMES : List String)
    (from_file : String → Except String (List ModelDef))
    (loc : String) (lines : List String) : List ModelDef :=
  ((lines.filter (fun l => decide (posixBasename (recordPath l) ∈ NAMES))).map
    (fun l => match from_file (pyJoin loc (recordPath l)) with
      | .ok ms => ms
      | .error _ => [])).flatten

/-- Specification-side closed form of the warnings emitted by a manifest
scan: one warning per matched line whose parse fails. -/
def scanWarns (NAMES : List String)
    (from_file : String → Except String (List ModelDef))
    (loc : String) (lines : List String) : List String :=
  ((lines.filter (fun l => decide (posixBasename (recordPath l) ∈ NAMES))).map
    (fun l => match from_file (pyJoin loc (recordPath l)) with
      | .ok _ => []
      | .error e => ["unable to load models from " ++ pyJoin loc (recordPath l)
          ++ ": " ++ e])).flatten

/-! ### The modeldef cache on a distribution (`_ensure_dist_modeldefs`) -/

/-- The attribute state `_ensure_dist_modeldefs` manipulates on a
distribution object, with a count of `_load_dist_modeldefs` runs (the
scan-count instrumentation double of spec §8).  `modelefs_set` mirrors the
attribute "_modelefs" the source TESTS with hasattr; `modeldefs` mirrors
the attribute "_modeldefs" the source ASSIGNS.  No code in the module
ever sets "_modelefs". -/
structure DistCacheState where
  modelefs_set : Bool
  modeldefs : Option (List ModelDef)
  loadCount : Nat
deriving DecidableEq

/-- `_ensure_dist_modeldefs(dist)` (model.py lines 65-68): when the
attribute "_modelefs" is absent, run `_load_dist_modeldefs` (its pure
result is `load`) and store it under "_modeldefs"; then return
`dist._modeldefs` (`none` models the AttributeError when it was never
assigned). -/
def ensure_dist_modeldefs (load : List ModelDef) (st : DistCacheState) :
    DistCacheState × Option (List ModelDef) :=
  if st.modelefs_set then (st, st.modeldefs)
  else
    let st2 : DistCacheState :=
      { st with modeldefs := some load, loadCount := st.loadCount + 1 }
    (st2, st2.modeldefs)

/-! ### The registry search path and public lookup -/

/-- `add_model_path(model_path)` (model.py lines 246-253) acting on the
current search path list: `path.remove(model_path)` removes the first
occurrence when present (the ValueError when absent is swallowed), then
`path.insert(0, model_path)` puts the root at the front. -/
def add_model_path (path : List String) (model_path : String) : List String :=
  model_path :: path.erase model_path

/-- What the registry functions read from a constructed Model wrapper:
its resolved modeldef (whose privacy flag `iter_models` filters on). -/
structure RModel where
  modeldef : ModelDef
deriving DecidableEq

/-- The state of the `_models` registry as the public functions see it:
the (fullname, model) pairs of the current index.  Modelled from the
spec: `entry_point_util.EntryPointResources` is not among the sources;
iterating it yields (name, model) pairs and `for_name` resolves an exact
fullname, failing when absent. -/
structure ModelsState where
  models : List (String × RModel)

/-- `iter_models()` (model.py lines 255-258): yield each model of the
index whose modeldef is not private. -/
def iter_models (st : ModelsState) : List RModel :=
  (st.models.filter (fun nm => !nm.2.modeldef.«private»)).map (fun nm => nm.2)

/-- `for_name(name)` (model.py lines 260-261) delegates to
`_models.for_name`; modelled from the spec as exact-name lookup in the
index, with no privacy filtering and a NotFound failure when absent. -/
def for_name (st : ModelsState) (name : String) : Except Unit RModel :=
  match st.models.find? (fun nm => nm.1 = name) with
  | some nm => .ok nm.2
  | none => .error ()

/-! ### Model provenance references (`Model.reference`) -/

/-- The `modelfile` attribute of a file-backed distribution as
`Model.reference` uses it: its `src` path. -/
structure ModelfileObj where
  src : String

/-- A model's owning distribution as `Model.reference` distinguishes them:
on a `ModelfileDistribution` the `self.dist.modelfile` attribute access
succeeds; on any other distribution it raises AttributeError and the
distribution is rendered with `"%s" % self.dist`, i.e. its str() (from
`pkg_resources.Distribution.__str__`, external), carried here as
`display`. -/
inductive ModelDist
  | file (mf : ModelfileObj)
  | pkg (display : String)

/-- The fields of a Model wrapper that `reference` reads. -/
structure Model where
  name : String
  dist : ModelDist

/-- `_modelfile_hash(path)` (model.py lines 99-106): md5 hexdigest of the
file's bytes, or the sentinel "-" with a warning when the file cannot be
read.  `readFile` models `open(path, "rb").read()`; `md5hex` models
`hashlib.md5(...).hexdigest()` (external).  Returns the hash and the
warnings emitted. -/
def modelfile_hash (readFile : String → Except Unit (List Nat))
    (md5hex : List Nat → String) (path : String) : String × List String :=
  match readFile path with
  | .error _ =>
    ("-", ["unable to read " ++ path ++ " to calculate modelfile hash"])
  | .ok bytes => (md5hex bytes, [])

/-- `_modelfile_dist_ref(modelfile)` (model.py lines 95-97): the absolute
path of the modelfile source and its hash, space separated.  `abspath`
models `os.path.abspath` (working-directory dependent, external). -/
def modelfile_dist_ref (readFile : String → Except Unit (List Nat))
    (md5hex : List Nat → String) (abspath : String → String)
    (mf : ModelfileObj) : String × List String :=
  let path := abspath mf.src
  let h := modelfile_hash readFile md5hex path
  (path ++ " " ++ h.1, h.2)

/-- `Model.reference` (model.py lines 47-54): package-backed models render
as `"dist:%s %s" % (dist, name)`; file-backed models as
`"file:%s %s" % (_modelfile_dist_ref(modelfile), name)`. -/
def reference (readFile : String → Except Unit (List Nat))
    (md5hex : List Nat → String) (abspath : String → String)
    (m : Model) : String × List String :=
  match m.dist with
  | .pkg display => ("dist:" ++ display ++ " " ++ m.name, [])
  | .file mf =>
    let r := modelfile_dist_ref readFile md5hex abspath mf
    ("file:" ++ r.1 ++ " " ++ m.name, r.2)

/-! ### C4: graceful degradation of the manifest scan -/

theorem load_foldl_closed (NAMES : List String)
    (from_file : String → Except String (List ModelDef)) (loc : String) :
    ∀ (lines : List String) (acc : List ModelDef × List String),
      lines.foldl (loadStep NAMES from_file loc) acc
        = (acc.1 ++ scanDefs NAMES from_file loc lines,
           acc.2 ++ scanWarns NAMES from_file loc lines) := by
  intro lines
  induction lines with
  | nil =>
    intro acc
    simp [scanDefs, scanWarns]
  | cons l t ih =>
    intro acc
    rw [List.foldl_cons, ih]
    by_cases hm : posixBasename (recordPath l) ∈ NAMES
    · cases hf : from_file (pyJoin loc (recordPath l)) with
      | ok ms =>
        simp [loadStep, try_acc_modeldefs, scanDefs, scanWarns, hm, hf,
          List.filter_cons, List.append_assoc]
      | error e =>
        simp [loadStep, try_acc_modeldefs, scanDefs, scanWarns, hm, hf,
          List.filter_cons, List.append_assoc]
    · simp [loadStep, scanDefs, scanWarns, hm, List.filter_cons]

/-- C4: an IOError reading the RECORD manifest produces a warning and the
empty definition collection, never a raised error; with a readable
manifest, the result is exactly the per-matched-line concatenation in
which a failed parse contributes a warning for that file and nothing
else, so the other matched files' definitions are still returned. -/
theorem load_dist_modeldefs_spec (NAMES : List String)
    (from_file : String → Except String (List ModelDef)) (dist : PkgDist) :
    (∀ e, dist.record = .error e →
      load_dist_modeldefs NAMES from_file dist =
        ([], ["distribution missing RECORD metadata - unable to find models"])) ∧
    (∀ lines, dist.record = .ok lines →
      load_dist_modeldefs NAMES from_file dist =
        (scanDefs NAMES from_file dist.location lines,
         scanWarns NAMES from_file dist.location lines)) := by
  constructor
  · intro e he
    unfold load_dist_modeldefs
    rw [he]
  · intro lines hl
    unfold load_dist_modeldefs
    rw [hl]
    show lines.foldl (loadStep NAMES from_file dist.location) ([], []) = _
    rw [load_foldl_closed]
    simp

/-- Witness for C4: one matched file parses, one matched file fails, one
line is not matched; the parsed definitions survive the failure. -/
theorem load_dist_modeldefs_spec_witness :
    load_dist_modeldefs ["MODEL"]
      (fun p => if p = "loc/a/MODEL" then .ok [⟨"net", false⟩]
        else .error "boom")
      ⟨"loc", .ok ["a/MODEL,x", "b/MODEL,y", "c.txt,z"]⟩
      = (scanDefs ["MODEL"]
          (fun p => if p = "loc/a/MODEL" then .ok [⟨"net", false⟩]
            else .error "boom")
          "loc" ["a/MODEL,x", "b/MODEL,y", "c.txt,z"],
         scanWarns ["MODEL"]
          (fun p => if p = "loc/a/MODEL" then .ok [⟨"net", false⟩]
            else .error "boom")
          "loc" ["a/MODEL,x", "b/MODEL,y", "c.txt,z"]) :=
  (load_dist_modeldefs_spec ["MODEL"]
    (fun p => if p = "loc/a/MODEL" then .ok [⟨"net", false⟩]
      else .error "boom")
    ⟨"loc", .ok ["a/MODEL,x", "b/MODEL,y", "c.txt,z"]⟩).2
    ["a/MODEL,x", "b/MODEL,y", "c.txt,z"] rfl

/-! ### C5: first-match lookup semantics -/

/-- C5: both lookup paths — `ModelfileDistribution.get_model` and the
scan `_modeldef_for_dist` runs over a package distribution's loaded
definitions — return the first definition in declaration order whose name
matches, and fail with their not-found error when no definition has the
requested name. -/
theorem model_lookup_first_match (mf pre post : List ModelDef)
    (m : ModelDef) (name : String) :
    (mf = pre ++ m :: post → m.name = name → (∀ x ∈ pre, x.name ≠ name) →
      get_model mf name = .ok m ∧ modeldef_for_dist_scan mf name = .ok m) ∧
    ((∀ x ∈ mf, x.name ≠ name) →
      get_model mf name = .error name ∧
      modeldef_for_dist_scan mf name = .error ("undefined model " ++ name)) := by
  constructor
  · intro hmf hm hpre
    subst hmf
    revert hpre
    induction pre with
    | nil =>
      intro _
      simp only [List.nil_append, get_model, modeldef_for_dist_scan]
      rw [if_pos hm, if_pos hm]
      exact ⟨rfl, rfl⟩
    | cons x t ih =>
      intro hpre
      have hx : x.name ≠ name := hpre x (List.mem_cons_self x t)
      simp only [List.cons_append, get_model, modeldef_for_dist_scan]
      rw [if_neg hx, if_neg hx]
      exact ih (fun y hy => hpre y (List.mem_cons_of_mem x hy))
  · intro hall
    revert hall
    induction mf with
    | nil => exact fun _ => ⟨rfl, rfl⟩
    | cons x t ih =>
      intro hall
      have hx : x.name ≠ name := hall x (List.mem_cons_self x t)
      simp only [get_model, modeldef_for_dist_scan]
      rw [if_neg hx, if_neg hx]
      exact ih (fun y hy => hall y (List.mem_cons_of_mem x hy))

/-- Witness for C5: a duplicate name resolves to the first declaration;
a missing name errors on both lookup paths. -/
theorem model_lookup_first_match_witness :
    (get_model [⟨"net", false⟩, ⟨"net", true⟩] "net" = .ok ⟨"net", false⟩ ∧
      modeldef_for_dist_scan [⟨"net", false⟩, ⟨"net", true⟩] "net"
        = .ok ⟨"net", false⟩) ∧
    (get_model [⟨"net", false⟩, ⟨"net", true⟩] "mlp" = .error "mlp" ∧
      modeldef_for_dist_scan [⟨"net", false⟩, ⟨"net", true⟩] "mlp"
        = .error ("undefined model " ++ "mlp")) :=
  ⟨(model_lookup_first_match [⟨"net", false⟩, ⟨"net", true⟩] []
      [⟨"net", true⟩] ⟨"net", false⟩ "net").1 rfl rfl (by decide),
   (model_lookup_first_match [⟨"net", false⟩, ⟨"net", true⟩] []
      [] ⟨"net", false⟩ "mlp").2 (by decide)⟩

/-! ### C6: private filtering asymmetry -/

/-- C6: a model whose definition is private is never yielded by
`iter_models`, while `for_name` still resolves it by exact fullname;
non-private models are yielded by iteration. -/
theorem private_filtering_asymmetry (st : ModelsState) (n : String)
    (m : RModel) :
    (m.modeldef.«private» = true → m ∉ iter_models st) ∧
    (st.models.find? (fun nm => nm.1 = n) = some (n, m) →
      for_name st n = .ok m) ∧
    ((n, m) ∈ st.models → m.modeldef.«private» = false →
      m ∈ iter_models st) := by
  refine ⟨?_, ?_, ?_⟩
  · intro hp hmem
    unfold iter_models at hmem
    obtain ⟨nm, hnm, heq⟩ := List.mem_map.mp hmem
    have hfilt := List.of_mem_filter hnm
    rw [heq, hp] at hfilt
    cases hfilt
  · intro hfind
    unfold for_name
    rw [hfind]
  · intro hmem hp
    unfold iter_models
    exact List.mem_map.mpr ⟨(n, m),
      List.mem_filter.mpr ⟨hmem, by simp [hp]⟩, rfl⟩

/-- Witness for C6 on a two-model registry with one private model. -/
theorem private_filtering_asymmetry_witness :
    ((⟨⟨"debug", true⟩⟩ : RModel) ∉ iter_models
      ⟨[("pkg/net", ⟨⟨"net", false⟩⟩), ("pkg/debug", ⟨⟨"debug", true⟩⟩)]⟩) ∧
    for_name ⟨[("pkg/net", ⟨⟨"net", false⟩⟩),
      ("pkg/debug", ⟨⟨"debug", true⟩⟩)]⟩ "pkg/debug"
      = .ok ⟨⟨"debug", true⟩⟩ ∧
    (⟨⟨"net", false⟩⟩ : RModel) ∈ iter_models
      ⟨[("pkg/net", ⟨⟨"net", false⟩⟩), ("pkg/debug", ⟨⟨"debug", true⟩⟩)]⟩ :=
  ⟨(private_filtering_asymmetry
      ⟨[("pkg/net", ⟨⟨"net", false⟩⟩), ("pkg/debug", ⟨⟨"debug", true⟩⟩)]⟩
      "pkg/debug" ⟨⟨"debug", true⟩⟩).1 rfl,
   (private_filtering_asymmetry
      ⟨[("pkg/net", ⟨⟨"net", false⟩⟩), ("pkg/debug", ⟨⟨"debug", true⟩⟩)]⟩
      "pkg/debug" ⟨⟨"debug", true⟩⟩).2.1 (by decide),
   (private_filtering_asymmetry
      ⟨[("pkg/net", ⟨⟨"net", false⟩⟩), ("pkg/debug", ⟨⟨"debug", true⟩⟩)]⟩
      "pkg/net" ⟨⟨"net", false⟩⟩).2.2 (by decide) rfl⟩

/-! ### C7: the memoization test misspells its attribute -/

/-- C7 (code bug): `_ensure_dist_modeldefs` tests `hasattr(dist,
"_modelefs")`, a misspelling of the `_modeldefs` attribute it assigns, so
the test never passes and every call re-runs `_load_dist_modeldefs`:
from a fresh distribution, two consecutive calls run the loader twice
(load count 2, not 1), re-reading the filesystem, although both calls do
return the same list and the tested attribute remains unset. -/
theorem ensure_dist_modeldefs_reloads :
    ((ensure_dist_modeldefs [⟨"net", false⟩]
        (ensure_dist_modeldefs [⟨"net", false⟩]
          ⟨false, none, 0⟩).1).1).loadCount = 2 ∧
    (ensure_dist_modeldefs [⟨"net", false⟩]
        (ensure_dist_modeldefs [⟨"net", false⟩] ⟨false, none, 0⟩).1).2
      = some [⟨"net", false⟩] ∧
    ((ensure_dist_modeldefs [⟨"net", false⟩]
        (ensure_dist_modeldefs [⟨"net", false⟩]
          ⟨false, none, 0⟩).1).1).modelefs_set = false := by
  decide

/-! ### C8: add_model_path front insertion -/

/-- C8 counterexample: on the path ["a", "a"] (reachable via set_path),
add_model_path "a" removes only the first occurrence (Python
list.remove), so "a" ends up twice, not exactly once. -/
theorem add_model_path_counterexample :
    add_model_path ["a", "a"] "a" = ["a", "a"] ∧
    (add_model_path ["a", "a"] "a").count "a" ≠ 1 := by decide

theorem filter_ne_erase (l : List String) (a : String) :
    (l.erase a).filter (fun x => x ≠ a) = l.filter (fun x => x ≠ a) := by
  induction l with
  | nil => rfl
  | cons b t ih =>
    by_cases hba : b = a
    · subst hba
      rw [List.erase_cons_head, List.filter_cons, if_neg (by simp)]
    · rw [List.erase_cons_tail (by simp [hba]), List.filter_cons,
        List.filter_cons, if_pos (by simp [hba]), if_pos (by simp [hba]), ih]

/-- C8 (amended): when the root occurs at most once in the current path
(the invariant add_model_path itself preserves), the call removes any
existing occurrence and prepends the root: afterwards the root is the
first element, occurs exactly once, and all other entries keep their
relative order.  On a path that already holds the root twice, only the
first occurrence is removed, so the root ends up duplicated. -/
theorem add_model_path_spec (path : List String) (r : String)
    (h : path.count r ≤ 1) :
    (add_model_path path r).head? = some r ∧
    (add_model_path path r).count r = 1 ∧
    (add_model_path path r).filter (fun x => x ≠ r) =
      path.filter (fun x => x ≠ r) := by
  refine ⟨rfl, ?_, ?_⟩
  · unfold add_model_path
    rw [List.count_cons_self]
    by_cases hr : r ∈ path
    · rw [List.count_erase_self]
      have hpos : 0 < path.count r := List.count_pos_iff.mpr hr
      omega
    · rw [List.erase_of_not_mem hr]
      have : path.count r = 0 := by
        rw [List.count_eq_zero]
        exact hr
      omega
  · unfold add_model_path
    rw [List.filter_cons, if_neg (by simp)]
    exact filter_ne_erase path r

/-- Witness for C8 at the path ["./proj-a", "./proj-b"], re-adding
"./proj-b". -/
theorem add_model_path_spec_witness :
    (add_model_path ["./proj-a", "./proj-b"] "./proj-b").head?
      = some "./proj-b" ∧
    (add_model_path ["./proj-a", "./proj-b"] "./proj-b").count "./proj-b"
      = 1 ∧
    (add_model_path ["./proj-a", "./proj-b"] "./proj-b").filter
        (fun x => x ≠ "./proj-b")
      = ["./proj-a", "./proj-b"].filter (fun x => x ≠ "./proj-b") :=
  add_model_path_spec ["./proj-a", "./proj-b"] "./proj-b" (by decide)

/-! ### C9: provenance reference strings -/

/-- C9 counterexample: for a file-backed model the source appends the
model name after the content hash; with an unreadable file at absolute
path "/cwd/p" and model name "net" the reference is "file:/cwd/p - net",
not "file:/cwd/p -" (the claim's format, which ends at the hash). -/
theorem reference_counterexample :
    (reference (fun _ => .error ()) (fun _ => "") (fun s => "/cwd/" ++ s)
      ⟨"net", .file ⟨"p"⟩⟩).1 = "file:/cwd/p - net" ∧
    (reference (fun _ => .error ()) (fun _ => "") (fun s => "/cwd/" ++ s)
      ⟨"net", .file ⟨"p"⟩⟩).1 ≠ "file:/cwd/p -" := by
  decide

/-- C9 (amended): a package-backed model's reference is "dist:" ++
str(distribution) ++ " " ++ name; a file-backed model's reference is
"file:" ++ absolute_path ++ " " ++ content_hash ++ " " ++ name, where
the hash is the md5 hexdigest of the definition file's bytes or the
sentinel "-" when the file cannot be read, in which case a warning is
recorded and nothing is raised. -/
theorem reference_spec (readFile : String → Except Unit (List Nat))
    (md5hex : List Nat → String) (abspath : String → String) (m : Model) :
    (∀ display, m.dist = .pkg display →
      reference readFile md5hex abspath m
        = ("dist:" ++ display ++ " " ++ m.name, [])) ∧
    (∀ mf bytes, m.dist = .file mf → readFile (abspath mf.src) = .ok bytes →
      reference readFile md5hex abspath m
        = ("file:" ++ abspath mf.src ++ " " ++ md5hex bytes ++ " "
            ++ m.name, [])) ∧
    (∀ mf, m.dist = .file mf → readFile (abspath mf.src) = .error () →
      reference readFile md5hex abspath m
        = ("file:" ++ abspath mf.src ++ " " ++ "-" ++ " " ++ m.name,
           ["unable to read " ++ abspath mf.src
             ++ " to calculate modelfile hash"])) := by
  refine ⟨?_, ?_, ?_⟩
  · intro display hdist
    simp [reference, hdist]
  · intro mf bytes hdist hread
    simp [reference, modelfile_dist_ref, modelfile_hash, hdist, hread,
      String.append_assoc]
  · intro mf hdist hread
    simp [reference, modelfile_dist_ref, modelfile_hash, hdist, hread,
      String.append_assoc]

/-- Witness for C9 on concrete package-backed and file-backed models. -/
theorem reference_spec_witness :
    reference (fun _ => .ok [1]) (fun _ => "d41d8c") (fun s => "/a/" ++ s)
      ⟨"net", .pkg "guild.models 0.1"⟩
      = ("dist:guild.models 0.1 net", []) ∧
    reference (fun _ => .ok [1]) (fun _ => "d41d8c") (fun s => "/a/" ++ s)
      ⟨"net", .file ⟨"m"⟩⟩
      = ("file:/a/m d41d8c net", []) ∧
    reference (fun _ => .error ()) (fun _ => "d41d8c") (fun s => "/a/" ++ s)
      ⟨"net", .file ⟨"m"⟩⟩
      = ("file:/a/m - net",
         ["unable to read /a/m to calculate modelfile hash"]) :=
  ⟨(reference_spec (fun _ => .ok [1]) (fun _ => "d41d8c")
      (fun s => "/a/" ++ s) ⟨"net", .pkg "guild.models 0.1"⟩).1
      "guild.models 0.1" rfl,
   (reference_spec (fun _ => .ok [1]) (fun _ => "d41d8c")
      (fun s => "/a/" ++ s) ⟨"net", .file ⟨"m"⟩⟩).2.1 ⟨"m"⟩ [1] rfl rfl,
   (reference_spec (fun _ => .error ()) (fun _ => "d41d8c")
      (fun s => "/a/" ++ s) ⟨"net", .file ⟨"m"⟩⟩).2.2 ⟨"m"⟩ rfl rfl⟩

/-! ### The flag value codec (`guild/flag_util.py`) -/

/-- The values whose encoding `encode_flag_val` special-cases as scalar
literals: True, False, None and ints.  (The source also encodes floats,
strings, lists and dicts through YAML; those branches are outside this
scalar round trip.) -/
inductive FlagScalar
  | pyBool (b : Bool)
  | pyNone
  | pyInt (n : Int)
deriving DecidableEq

/-- The values `decode_flag_val` produces on the inputs considered
here. -/
inductive PyDecoded
  | dBool (b : Bool)
  | dNone
  | dInt (n : Int)
  | dStr (s : String)
deriving DecidableEq

/-- Python `str` of a nonnegative int: decimal digits most significant
first, "0" for zero. -/
def pyStrOfNat (m : Nat) : String :=
  if m = 0 then "0"
  else String.mk ((Nat.digits 10 m).reverse.map (fun d => Char.ofNat (48 + d)))

/-- Python `str` of an int: a '-' sign before the digits of the absolute
value for negatives. -/
def pyStrOfInt (n : Int) : String :=
  if n < 0 then "-" ++ pyStrOfNat n.natAbs else pyStrOfNat n.natAbs

/-- A maximal decimal-digit parse of a character list (most significant
first): `none` unless the list is non-empty and all digits. -/
def pyNatOfChars? (l : List Char) : Option Nat :=
  if l ≠ [] ∧ l.all (fun c => decide (48 ≤ c.toNat ∧ c.toNat ≤ 57)) then
    some (l.foldl (fun a c => a * 10 + (c.toNat - 48)) 0)
  else none

/-- Python `int(s)` for strings without surrounding whitespace or
underscore digit separators (the only forms `str` produces and the only
forms arising in the values decoded here): an optional sign followed by
one or more decimal digits, `ValueError` (None) otherwise. -/
def pyIntOfString? (s : String) : Option Int :=
  if s.data.take 1 = ['-'] then
    (pyNatOfChars? (s.data.drop 1)).map (fun m : Nat => -(m : Int))
  else if s.data.take 1 = ['+'] then
    (pyNatOfChars? (s.data.drop 1)).map (fun m : Nat => (m : Int))
  else (pyNatOfChars? s.data).map (fun m : Nat => (m : Int))

/-- The characters the FUNCTION_P name group accepts
(`[a-zA-Z0-9_\-\.]`). -/
def funcNameChar (c : Char) : Bool :=
  c.isAlphanum || c == '_' || c == '-' || c == '.'

/-- Python `str.strip()`: whitespace removed from both ends. -/
def pyStrip (l : List Char) : List Char :=
  ((l.dropWhile Char.isWhitespace).reverse.dropWhile Char.isWhitespace).reverse

/-- The guard applied by `_yaml_parse` (flag_util.py lines 90-105) before
yaml parsing: whether `decode_flag_function` succeeds on `s` with name
None and at least two arguments.  FUNCTION_P is
`([a-zA-Z0-9_\-\.]*)\[(.*)\]\s*$` anchored at the start, so a match needs
the leading name-character run to be followed by '[', and everything
after the last ']' to be whitespace; the name is None exactly when the
name run is empty, and the argument count is one more than the number of
':' in the stripped bracket text when that text is non-empty.  Only this
name/arity test matters to `_yaml_parse`, not the decoded argument
values. -/
def functionGuard (s : String) : Bool :=
  let nameRun := s.data.takeWhile funcNameChar
  match s.data.dropWhile funcNameChar with
  | '[' :: mid =>
    match mid.reverse.dropWhile Char.isWhitespace with
    | ']' :: innerRev =>
      let args_raw := pyStrip innerRev.reverse
      let nargs := if args_raw = [] then 0 else args_raw.count ':' + 1
      decide (nameRun = []) && decide (2 ≤ nargs)
    | _ => false
  | _ => false

/-- `yaml.safe_load` on the scalar strings that reach it from
`decode_flag_val` in the cases proved here: PyYAML's SafeLoader resolves
the YAML 1.1 boolean and null words; anything else relevant here loads as
the string itself (numeric strings are consumed by `int()` earlier and
floats are outside this scalar round trip). -/
def yamlSafeLoadScalar (s : String) : PyDecoded :=
  if s ∈ ["yes", "Yes", "YES", "true", "True", "TRUE", "on", "On", "ON"] then
    .dBool true
  else if s ∈ ["no", "No", "NO", "false", "False", "FALSE", "off", "Off",
      "OFF"] then .dBool false
  else if s ∈ ["null", "Null", "NULL", "~", ""] then .dNone
  else .dStr s

/-- `decode_flag_val(s)` (flag_util.py lines 76-88): the empty string
decodes to itself; otherwise `int()` is tried first; then `_yaml_parse`,
which returns `s` unmodified when the function guard fires and otherwise
yaml-parses `s`. -/
def decode_flag_val (s : String) : PyDecoded :=
  if s = "" then .dStr ""
  else match pyIntOfString? s with
    | some n => .dInt n
    | none => if functionGuard s then .dStr s else yamlSafeLoadScalar s

/-- `encode_flag_val(val)` (flag_util.py lines 28-44) on the scalar
values: True → "yes", False → "no", None → "null"; an int is not a list,
float, string or dict, so it falls to the final branch `str(val)`, its
decimal representation. -/
def encode_flag_val : FlagScalar → String
  | .pyBool true => "yes"
  | .pyBool false => "no"
  | .pyNone => "null"
  | .pyInt n => pyStrOfInt n

/-- The Python value each scalar decodes back to. -/
def FlagScalar.toDecoded : FlagScalar → PyDecoded
  | .pyBool b => .dBool b
  | .pyNone => .dNone
  | .pyInt n => .dInt n

theorem digitChar_toNat (d : Nat) (h : d < 10) :
    (Char.ofNat (48 + d)).toNat = 48 + d := by
  revert d
  decide

theorem foldl_decimal_rev (L : List Nat) : ∀ acc : Nat,
    L.reverse.foldl (fun a d => a * 10 + d) acc
      = acc * 10 ^ L.length + Nat.ofDigits 10 L := by
  induction L with
  | nil =>
    intro acc
    simp [Nat.ofDigits]
  | cons d t ih =>
    intro acc
    rw [List.reverse_cons, List.foldl_append]
    simp only [List.foldl_cons, List.foldl_nil]
    rw [ih acc, Nat.ofDigits_cons, List.length_cons, pow_succ]
    ring

theorem foldl_digitChar (L : List Nat) (h : ∀ d ∈ L, d < 10) :
    ∀ acc : Nat,
      (L.map (fun d => Char.ofNat (48 + d))).foldl
          (fun a c => a * 10 + (c.toNat - 48)) acc
        = L.foldl (fun a d => a * 10 + d) acc := by
  induction L with
  | nil =>
    intro acc
    rfl
  | cons d t ih =>
    intro acc
    have hd : d < 10 := h d (List.mem_cons_self d t)
    simp only [List.map_cons, List.foldl_cons, digitChar_toNat d hd]
    rw [show 48 + d - 48 = d from by omega]
    exact ih (fun x hx => h x (List.mem_cons_of_mem d hx)) _

theorem pyNatOfChars_pyStrOfNat (m : Nat) :
    pyNatOfChars? (pyStrOfNat m).data = some m := by
  by_cases hm : m = 0
  · subst hm
    decide
  · have hdig : ∀ d ∈ Nat.digits 10 m, d < 10 :=
      fun d hd => Nat.digits_lt_base (by norm_num) hd
    have hdigrev : ∀ d ∈ (Nat.digits 10 m).reverse, d < 10 :=
      fun d hd => hdig d (List.mem_reverse.mp hd)
    unfold pyStrOfNat
    rw [if_neg hm]
    show pyNatOfChars?
      ((Nat.digits 10 m).reverse.map (fun d => Char.ofNat (48 + d))) = some m
    unfold pyNatOfChars?
    rw [if_pos ?cond]
    case cond =>
      constructor
      · simp only [ne_eq, List.map_eq_nil_iff, List.reverse_eq_nil_iff]
        exact Nat.digits_ne_nil_iff_ne_zero.mpr hm
      · rw [List.all_eq_true]
        intro c hc
        obtain ⟨d, hd, rfl⟩ := List.mem_map.mp hc
        have hdlt : d < 10 := hdigrev d hd
        rw [digitChar_toNat d hdlt]
        simp only [decide_eq_true_eq]
        omega
    rw [foldl_digitChar _ hdigrev, foldl_decimal_rev]
    simp [Nat.ofDigits_digits]

theorem pyStrOfNat_head_digit (m : Nat) :
    ∃ c cs, (pyStrOfNat m).data = c :: cs ∧ 48 ≤ c.toNat ∧ c.toNat ≤ 57 := by
  by_cases hm : m = 0
  · subst hm
    exact ⟨'0', [], by decide, by decide, by decide⟩
  · unfold pyStrOfNat
    rw [if_neg hm]
    cases hL : (Nat.digits 10 m).reverse.map (fun d => Char.ofNat (48 + d)) with
    | nil =>
      exfalso
      rw [List.map_eq_nil_iff, List.reverse_eq_nil_iff] at hL
      exact Nat.digits_ne_nil_iff_ne_zero.mpr hm hL
    | cons c cs =>
      refine ⟨c, cs, rfl, ?_⟩
      have hcmem : c ∈ (Nat.digits 10 m).reverse.map
          (fun d => Char.ofNat (48 + d)) := by
        rw [hL]
        exact List.mem_cons_self c cs
      obtain ⟨d, hd, rfl⟩ := List.mem_map.mp hcmem
      have hdlt : d < 10 :=
        Nat.digits_lt_base (by norm_num) (List.mem_reverse.mp hd)
      rw [digitChar_toNat d hdlt]
      omega

theorem pyStrOfInt_ne_empty (n : Int) : pyStrOfInt n ≠ "" := by
  intro hEq
  have hdata := congrArg String.data hEq
  unfold pyStrOfInt at hdata
  by_cases hneg : n < 0
  · rw [if_pos hneg, String.data_append] at hdata
    obtain ⟨c, cs, hcs, _, _⟩ := pyStrOfNat_head_digit n.natAbs
    rw [hcs] at hdata
    cases hdata
  · rw [if_neg hneg] at hdata
    obtain ⟨c, cs, hcs, _, _⟩ := pyStrOfNat_head_digit n.natAbs
    rw [hcs] at hdata
    cases hdata

theorem pyIntOfString_pyStrOfInt (n : Int) :
    pyIntOfString? (pyStrOfInt n) = some n := by
  by_cases hneg : n < 0
  · unfold pyStrOfInt
    rw [if_pos hneg]
    unfold pyIntOfString?
    have hdata : ("-" ++ pyStrOfNat n.natAbs).data
        = '-' :: (pyStrOfNat n.natAbs).data := by
      rw [String.data_append]
      rfl
    rw [hdata]
    rw [if_pos (show ('-' :: (pyStrOfNat n.natAbs).data).take 1 = ['-']
      from rfl)]
    rw [show ('-' :: (pyStrOfNat n.natAbs).data).drop 1
      = (pyStrOfNat n.natAbs).data from rfl]
    rw [pyNatOfChars_pyStrOfNat, Option.map_some']
    have heq : -((n.natAbs : Nat) : Int) = n := by omega
    rw [heq]
  · unfold pyStrOfInt
    rw [if_neg hneg]
    obtain ⟨c, cs, hcs, hlo, hhi⟩ := pyStrOfNat_head_digit n.natAbs
    have hminus : ('-' : Char).toNat = 45 := by decide
    have hplus : ('+' : Char).toNat = 43 := by decide
    unfold pyIntOfString?
    rw [hcs]
    rw [if_neg ?neg1, if_neg ?neg2]
    case neg1 =>
      intro hEq
      have hEq' : [c] = ['-'] := hEq
      injection hEq' with h1 _
      rw [h1, hminus] at hlo
      omega
    case neg2 =>
      intro hEq
      have hEq' : [c] = ['+'] := hEq
      injection hEq' with h1 _
      rw [h1, hplus] at hlo
      omega
    rw [← hcs, pyNatOfChars_pyStrOfNat, Option.map_some']
    have heq : ((n.natAbs : Nat) : Int) = n := by omega
    rw [heq]

/-- C10: the flag codec round-trips its special-cased scalar literals:
True → "yes", False → "no", None → "null", and every int → its decimal
string, each decoded back to the original value by decode_flag_val. -/
theorem decode_encode_flag_val (v : FlagScalar) :
    decode_flag_val (encode_flag_val v) = v.toDecoded := by
  cases v with
  | pyBool b => cases b <;> decide
  | pyNone => decide
  | pyInt n =>
    show decode_flag_val (pyStrOfInt n) = .dInt n
    unfold decode_flag_val
    rw [if_neg (pyStrOfInt_ne_empty n), pyIntOfString_pyStrOfInt n]

end GuildModel
